import Mathlib

/-!
Shallow embedding, in exact rational arithmetic, of the finite-volume spatial
discretization in `src/aspatial.cpp` of the FVENS solver (class `Spatial`,
class `FlowFV`).  Machine floating-point arithmetic is modelled by `ℚ`;
the library square root (an external call, `sqrt` of libm) is modelled by an
abstract function parameter `sq : ℚ → ℚ`.  Flux and flux-Jacobian kernels
(classes `RoeFlux`, `HLLCFlux`, ... from other translation units) are
abstract function parameters as well: the claims under study are about the
assembly code in `aspatial.cpp`, which treats them as black boxes.
-/

/-- A conservative state vector (ρ, ρvₓ, ρv_y, ρE); `NVARS = 4` in the source. -/
abbrev State := Fin 4 → ℚ

/-- An `NVARS × NVARS` block of the Jacobian. -/
abbrev Mat4 := Fin 4 → Fin 4 → ℚ

/-- Read-only mesh view consumed by `Spatial`/`FlowFV` (class `UMesh2dh`,
defined outside `src/`; modelled here by the accessors `aspatial.cpp` calls:
`gnelem`, `gnbface`, `gnaface`, `gintfac` columns 0–3, `ggallfa` columns 0–3,
`gcoords`, `gnnode`, `ginpoel`, `garea`). -/
structure UMesh2dh where
  /-- number of interior cells (`gnelem`) -/
  nelem : ℕ
  /-- number of boundary faces (`gnbface`); faces `[0, nbface)` are boundary -/
  nbface : ℕ
  /-- total number of faces (`gnaface`) -/
  naface : ℕ
  /-- left cell of a face (`gintfac(·,0)`) -/
  intfacL : ℕ → ℕ
  /-- right cell of a face (`gintfac(·,1)`); a ghost slot `≥ nelem` on boundary faces -/
  intfacR : ℕ → ℕ
  /-- first endpoint node of a face (`gintfac(·,2)`) -/
  intfacP1 : ℕ → ℕ
  /-- second endpoint node of a face (`gintfac(·,3)`) -/
  intfacP2 : ℕ → ℕ
  /-- x-component of the face unit normal (`ggallfa(·,0)`) -/
  fnx : ℕ → ℚ
  /-- y-component of the face unit normal (`ggallfa(·,1)`) -/
  fny : ℕ → ℚ
  /-- face length (`ggallfa(·,2)`) -/
  flen : ℕ → ℚ
  /-- boundary marker of a face (`ggallfa(·,3)`) -/
  fmarker : ℕ → ℤ
  /-- node coordinates (`gcoords`) -/
  coords : ℕ → Fin 2 → ℚ
  /-- number of nodes of a cell (`gnnode`) -/
  nnode : ℕ → ℕ
  /-- node indices of a cell (`ginpoel`) -/
  inpoel : ℕ → ℕ → ℕ
  /-- cell area (`garea`) -/
  area : ℕ → ℚ

/-- Boundary-condition configuration of `FlowFV`: the per-marker ids fixed at
construction, the wall temperature setpoint and the stored free stream `uinf`. -/
structure FlowBC where
  slip_wall_id : ℤ
  isothermal_wall_id : ℤ
  adiabatic_wall_id : ℤ
  inflow_outflow_id : ℤ
  isothermal_wall_temperature : ℚ
  uinfv : State

/-- Cell centre `rc`: arithmetic mean of the cell's node coordinates
(`Spatial::Spatial`, the loop filling `rc`). -/
def cell_centre (m : UMesh2dh) (ielem : ℕ) (idim : Fin 2) : ℚ :=
  (∑ inode ∈ Finset.range (m.nnode ielem), m.coords (m.inpoel ielem inode) idim)
    / (m.nnode ielem)

/-- Midpoint of a face: the average of its two endpoint nodes
(`compute_ghost_cell_coords_about_midpoint`, the `midpoint` local). -/
def face_midpoint (m : UMesh2dh) (iface : ℕ) (idim : Fin 2) : ℚ :=
  (1/2) * (m.coords (m.intfacP1 iface) idim + m.coords (m.intfacP2 iface) idim)

/-- Ghost-cell centre `rcg` under the midpoint policy
(`Spatial::compute_ghost_cell_coords_about_midpoint`):
`rcg(iface,idim) = 2*midpoint[idim] - rc(ielem,idim)` with `ielem = gintfac(iface,0)`. -/
def ghost_centre_midpoint (m : UMesh2dh) (iface : ℕ) (idim : Fin 2) : ℚ :=
  2 * face_midpoint m iface idim - cell_centre m (m.intfacL iface) idim

/-- The free-stream conservative state stored by the `FlowFV` constructor:
`uinf = (1, cos a, sin a, 1/((g-1) g Minf²) + 1/2)`.  The trigonometric values
`cos a` and `sin a` are computed by libm in the source; they enter the model as
the parameters `cosa` and `sina`. -/
def FlowFV_uinf (g Minf cosa sina : ℚ) : State :=
  ![1, cosa, sina, 1/((g-1)*g*Minf*Minf) + 1/2]

/-- Embeds `FlowFV::initializeUnknowns`: when `fromfile` is false, every interior cell
state is set to the stored free stream; when `fromfile` is true the source does
nothing (the file branch is an unimplemented TODO), so `u` keeps its prior
contents. -/
def initializeUnknowns (fromfile : Bool) (nelem : ℕ) (uinfv : State)
    (u0 : ℕ → State) : ℕ → State :=
  if fromfile then u0
  else fun i => if i < nelem then uinfv else u0 i

/-- Pressure from a conserved state: `p = (g-1)(ρE - (ρvₓ² + ρv_y²)/(2ρ))`.
This formula appears inline in `FlowFV::compute_residual` (the `pi`, `pj`
locals) and is the body of `IdealGasPhysics::getPressureFromConserved`. -/
def pressureFromConserved (g : ℚ) (u : State) : ℚ :=
  (g-1) * (u 3 - (1/2) * (u 1 * u 1 + u 2 * u 2) / u 0)

/-- Sound speed from a conserved state: `c = sqrt(g p / ρ)`, with the libm
square root abstracted as `sq`.  Inline in `FlowFV::compute_residual`
(the `ci`, `cj` locals) and the body of `getSoundSpeedFromConserved`. -/
def soundSpeedFromConserved (sq : ℚ → ℚ) (g : ℚ) (u : State) : ℚ :=
  sq (g * pressureFromConserved g u / u 0)

/-- Modelled from the spec: `IdealGasPhysics::getTemperatureFromConserved` is
not under `src/`; §4.2 gives the nondimensional relation `p = ρT/(g Minf²)`,
so `T = g Minf² p / ρ`. -/
def getTemperatureFromConserved (g Minf : ℚ) (u : State) : ℚ :=
  g * Minf * Minf * pressureFromConserved g u / u 0

/-- Modelled from the spec: `IdealGasPhysics::getEnergyFromPrimitive2` is not
under `src/`; §4.2 ("energy-from-primitives-with-T" with `p = ρT/(g Minf²)`)
gives `ρE = p/(g-1) + ρ(vₓ² + v_y²)/2` with `p = ρT/(g Minf²)`. -/
def getEnergyFromPrimitive2 (g Minf : ℚ) (rho vx vy T : ℚ) : ℚ :=
  (rho * T / (g * Minf * Minf)) / (g-1) + (1/2) * rho * (vx*vx + vy*vy)

/-- Embeds `FlowFV::compute_boundary_state`: the ghost state on boundary face `ied`
from the interior state `ins`.  The source writes into a caller-provided array
`bs`; `bs0` is that array's prior content, returned unchanged when no marker
matches (in the source the array would stay uninitialized).  The source tests
each marker with an independent `if`, every branch reading only `ins`, so a
chain of `if _ then _ else` with the later tests outermost is equivalent. -/
def compute_boundary_state (sq : ℚ → ℚ) (g Minf : ℚ) (bc : FlowBC)
    (m : UMesh2dh) (ied : ℕ) (ins : State) (bs0 : State) : State :=
  let nx := m.fnx ied
  let ny := m.fny ied
  let vni := (ins 1 * nx + ins 2 * ny) / ins 0
  let marker := m.fmarker ied
  let bs_slip : State := ![ins 0, ins 1 - 2*vni*nx*(ins 0), ins 2 - 2*vni*ny*(ins 0), ins 3]
  let bs_iso : State :=
    ![ins 0, -(ins 1), -(ins 2),
      getEnergyFromPrimitive2 g Minf (ins 0) (-(ins 1)/(ins 0)) (-(ins 2)/(ins 0))
        bc.isothermal_wall_temperature]
  let bs_adia : State :=
    ![ins 0, -(ins 1), -(ins 2),
      getEnergyFromPrimitive2 g Minf (ins 0) (-(ins 1)/(ins 0)) (-(ins 2)/(ins 0))
        (getTemperatureFromConserved g Minf ins)]
  let bs_char : State :=
    let ci := soundSpeedFromConserved sq g ins
    let Mni := vni / ci
    let pinf := pressureFromConserved g bc.uinfv
    if Mni ≤ 0 then bc.uinfv
    else if Mni ≤ 1 then
      ![ins 0, ins 1, ins 2, pinf/(g-1) + (1/2)*(ins 1 * ins 1 + ins 2 * ins 2)/(ins 0)]
    else ins
  -- the `characteristic_id` local in the source is the constant -1
  if marker = (-1 : ℤ) then bs_char
  else if marker = bc.inflow_outflow_id then bc.uinfv
  else if marker = bc.adiabatic_wall_id then bs_adia
  else if marker = bc.isothermal_wall_id then bs_iso
  else if marker = bc.slip_wall_id then bs_slip
  else bs0

/-- Output record of `FlowFV::compute_residual`: the residual array, the
per-cell wave-speed integral `integ` (a local array in the source) and the
time-step array `dtm`. -/
structure ResOut where
  res : ℕ → State
  integ : ℕ → ℚ
  dtm : ℕ → ℚ

/-- The type of a numerical-flux kernel `get_flux(uL, uR, n, flux)`:
fluxes live in other translation units, so they are abstract here. -/
abbrev FluxFn := State → State → ℚ → ℚ → State

/-- Left face states `uleft` of `FlowFV::compute_residual`.  First order:
`uleft(ied) = u(gintfac(ied,0))` for every face (boundary faces are set this
way in step 1, interior faces in the first-order `else` branch).  Second
order: produced by the reconstruction + limiter objects (`rec`, `lim`, and
the primitive-variable conversions), which live outside `src/` and are
abstracted by the parameter `faceRecon`. -/
def res_uleft (m : UMesh2dh) (secondOrder : Bool)
    (faceRecon : (ℕ → State) → (ℕ → State) × (ℕ → State))
    (u : ℕ → State) : ℕ → State :=
  if secondOrder then (faceRecon u).1 else fun ied => u (m.intfacL ied)

/-- Right face states `uright` of `FlowFV::compute_residual` after the final
`compute_boundary_states(uleft, uright)` call: ghost states on boundary faces,
and (first order) `u(gintfac(ied,1))` on interior faces; second-order interior
values come from the abstract `faceRecon`.  On a boundary face the array slot
holds unwritten data before the boundary-state call, so the prior value passed
to `compute_boundary_state` is the pre-override value. -/
def res_uright (sq : ℚ → ℚ) (g Minf : ℚ) (bc : FlowBC) (m : UMesh2dh)
    (secondOrder : Bool) (faceRecon : (ℕ → State) → (ℕ → State) × (ℕ → State))
    (u : ℕ → State) : ℕ → State :=
  let uright0 : ℕ → State :=
    if secondOrder then (faceRecon u).2 else fun ied => u (m.intfacR ied)
  fun ied =>
    if ied < m.nbface then
      compute_boundary_state sq g Minf bc m ied (res_uleft m secondOrder faceRecon u ied)
        (uright0 ied)
    else uright0 ied

/-- The face flux integral `ℓ·F` of face `ied` (the `fluxes` local after the
`fluxes[ivar] *= len` loop in `FlowFV::compute_residual`). -/
def face_flux_integral (flux : FluxFn) (m : UMesh2dh) (uleft uright : ℕ → State)
    (ied : ℕ) (ivar : Fin 4) : ℚ :=
  m.flen ied * flux (uleft ied) (uright ied) (m.fnx ied) (m.fny ied) ivar

/-- Contribution of face `ied` to cell `iel`'s residual: `+ℓ·F` added to the
left cell, and `−ℓ·F` added to the right cell exactly under the source's guard
`relem < gnelem()`. -/
def res_face_contrib (flux : FluxFn) (m : UMesh2dh) (uleft uright : ℕ → State)
    (ied iel : ℕ) (ivar : Fin 4) : ℚ :=
  (if m.intfacL ied = iel then face_flux_integral flux m uleft uright ied ivar else 0)
    + (if m.intfacR ied < m.nelem then
        (if m.intfacR ied = iel then -(face_flux_integral flux m uleft uright ied ivar) else 0)
      else 0)

/-- The normal velocity `(u₁ nₓ + u₂ n_y)/u₀` of a face state (the `vni`,
`vnj` locals in `FlowFV::compute_residual`). -/
def normal_velocity (m : UMesh2dh) (us : State) (ied : ℕ) : ℚ :=
  (us 1 * m.fnx ied + us 2 * m.fny ied) / us 0

/-- Contribution of face `ied` to cell `iel`'s wave-speed integral:
`(|v_n| + c)·ℓ` added to the left cell, and to the right cell under the
guard `relem < gnelem()`. -/
def integ_face_contrib (sq : ℚ → ℚ) (g : ℚ) (m : UMesh2dh) (uleft uright : ℕ → State)
    (ied iel : ℕ) : ℚ :=
  (if m.intfacL ied = iel then
      (|normal_velocity m (uleft ied) ied| + soundSpeedFromConserved sq g (uleft ied)) * m.flen ied
    else 0)
    + (if m.intfacR ied < m.nelem then
        (if m.intfacR ied = iel then
            (|normal_velocity m (uright ied) ied| + soundSpeedFromConserved sq g (uright ied))
              * m.flen ied
          else 0)
      else 0)

/-- Embeds `FlowFV::compute_residual`.  `res0` is the incoming content of the
caller-provided residual array: the source accumulates with `+=` and never
zeroes it (only the local `integ` array is zeroed).  The parallel atomic
accumulation over faces is modelled by a sum over the face range, which the
spec itself declares schedule-independent.  `dtm` is written (as `area/integ`,
with no guard on `integ = 0`) only for interior cells and only when
`gettimesteps` holds; otherwise the prior `dtm0` survives. -/
def compute_residual (sq : ℚ → ℚ) (flux : FluxFn) (g Minf : ℚ) (bc : FlowBC)
    (m : UMesh2dh) (secondOrder : Bool)
    (faceRecon : (ℕ → State) → (ℕ → State) × (ℕ → State))
    (u : ℕ → State) (res0 : ℕ → State) (gettimesteps : Bool) (dtm0 : ℕ → ℚ) : ResOut :=
  let uleft := res_uleft m secondOrder faceRecon u
  let uright := res_uright sq g Minf bc m secondOrder faceRecon u
  let res : ℕ → State := fun iel ivar =>
    res0 iel ivar + ∑ ied ∈ Finset.range m.naface, res_face_contrib flux m uleft uright ied iel ivar
  let integ : ℕ → ℚ := fun iel =>
    ∑ ied ∈ Finset.range m.naface, integ_face_contrib sq g m uleft uright ied iel
  let dtm : ℕ → ℚ := fun iel =>
    if gettimesteps ∧ iel < m.nelem then m.area iel / integ iel else dtm0 iel
  ⟨res, integ, dtm⟩

/-- The perturbation parameter fixed by the `Spatial` constructor:
`eps{sqrt(ZERO_TOL)/10.0}`.  `ZERO_TOL` is defined in a header outside `src/`
(the spec names it the unit round-off); its libm square root enters the model
as the parameter `sqrtZeroTol`. -/
def Spatial_eps (sqrtZeroTol : ℚ) : ℚ := sqrtZeroTol / 10

/-- The squared 2-norm `dot(N, v, v)` over the `nelem × NVARS` entries of `v`
(`Spatial::compute_jac_vec`). -/
def dotself (nelem : ℕ) (v : ℕ → State) : ℚ :=
  ∑ i ∈ Finset.range nelem, ∑ k : Fin 4, v i k * v i k

/-- Embeds `Spatial::compute_jac_vec`: the matrix-free Jacobian-vector product.
`vnorm = sqrt(dot(v,v))` with the libm square root abstracted as `sq`;
`aux = 0·aux + 1·u + (eps/vnorm)·v` (the `axpbypcz` call overwrites every
entry of `aux`); the residual at `aux` is accumulated by `compute_residual`
onto the incoming content `prod0` of the output array; then every entry is
mapped through `x ↦ (x − resu)/(eps/vnorm)`, and when `add_time_deriv` holds,
`area(i)/dtm(i) · v(i,·)` is added on interior cells. -/
def compute_jac_vec (sq : ℚ → ℚ) (flux : FluxFn) (g Minf : ℚ) (bc : FlowBC)
    (m : UMesh2dh) (secondOrder : Bool)
    (faceRecon : (ℕ → State) → (ℕ → State) × (ℕ → State))
    (eps : ℚ) (resu u v : ℕ → State) (add_time_deriv : Bool)
    (dtm : ℕ → ℚ) (prod0 : ℕ → State) : ℕ → State :=
  let vnorm := sq (dotself m.nelem v)
  let aux : ℕ → State := fun i k => u i k + eps/vnorm * v i k
  let r := (compute_residual sq flux g Minf bc m secondOrder faceRecon aux prod0
      false (fun _ => 0)).res
  let p1 : ℕ → State := fun i k => (r i k - resu i k) / (eps/vnorm)
  fun i k =>
    if add_time_deriv ∧ i < m.nelem then p1 i k + m.area i / dtm i * v i k
    else p1 i k

/-- One operation submitted to the abstract block-sparse linear operator
(`LinearOperator`): an additive diagonal-block update
(`updateDiagBlock(row, blk, NVARS)`) or an off-diagonal block submission
(`submitBlock(row, col, blk, arg1, arg2)`). -/
inductive MatOp where
  | updateDiag (row : ℕ) (blk : Mat4)
  | submit (row col : ℕ) (blk : Mat4) (arg1 arg2 : ℕ)
deriving DecidableEq

/-- Scale a block entrywise (the `left = -len*left`, `L *= len` lines). -/
def smulMat (a : ℚ) (M : Mat4) : Mat4 := fun i j => a * M i j

/-- Entrywise negation of a block. -/
def negMat (M : Mat4) : Mat4 := fun i j => -(M i j)

/-- The type of a flux-Jacobian kernel `get_jacobian(uL, uR, n, left, right)`;
per the doc comment above `FlowFV::compute_jacobian` in the source, the first
(left) output is `L = −∂F/∂u_L` and the second (right) output is
`U = +∂F/∂u_R`. -/
abbrev JacFn := State → State → ℚ → ℚ → Mat4 × Mat4

/-- The Jacobian of the numerical flux with respect to the left state,
`∂F/∂u_L`, recovered from the kernel's left output via the source's sign
convention `L = −∂F/∂u_L`. -/
def jflux_dFduL (jac : JacFn) (uL uR : State) (nx ny : ℚ) : Mat4 :=
  fun i j => -((jac uL uR nx ny).1 i j)

/-- The Jacobian of the numerical flux with respect to the right state,
`∂F/∂u_R`, which is the kernel's right output (`U = ∂F/∂u_R`). -/
def jflux_dFduR (jac : JacFn) (uL uR : State) (nx ny : ℚ) : Mat4 :=
  (jac uL uR nx ny).2

/-- Operations emitted by `FlowFV::compute_jacobian` for one boundary face:
the ghost state is computed, the kernel is evaluated at `(u_L, u_g)`, the left
output is scaled by `-len`, and only the L–L diagonal block is updated.  The
kernel's right output (the `right` local) is computed but never used.  The
ghost-state array `uface` is an uninitialized stack array in the source;
its modelled prior content is zero. -/
def boundary_face_ops (sq : ℚ → ℚ) (jac : JacFn) (g Minf : ℚ) (bc : FlowBC)
    (m : UMesh2dh) (u : ℕ → State) (iface : ℕ) : List MatOp :=
  let lelem := m.intfacL iface
  let uface := compute_boundary_state sq g Minf bc m iface (u lelem) (fun _ => 0)
  let left := (jac (u lelem) uface (m.fnx iface) (m.fny iface)).1
  [ MatOp.updateDiag (lelem * 4) (smulMat (-(m.flen iface)) left) ]

/-- Operations emitted by `FlowFV::compute_jacobian` for one interior face:
`L` and `U` from the kernel are scaled by `len`; in the `'d'` storage flavor
the lower block is submitted with tag 1 and the upper with tag 2, both with the
interior-face index `iface − nbface`; otherwise both extra arguments are
`NVARS = 4`.  Then `−L` and `−U` are added to the two diagonal blocks. -/
def interior_face_ops (jac : JacFn) (m : UMesh2dh) (u : ℕ → State)
    (typeD : Bool) (iface : ℕ) : List MatOp :=
  let lelem := m.intfacL iface
  let relem := m.intfacR iface
  let intface := iface - m.nbface
  let J := jac (u lelem) (u relem) (m.fnx iface) (m.fny iface)
  let L := smulMat (m.flen iface) J.1
  let U := smulMat (m.flen iface) J.2
  (if typeD then
    [ MatOp.submit (relem*4) (lelem*4) L 1 intface,
      MatOp.submit (lelem*4) (relem*4) U 2 intface ]
   else
    [ MatOp.submit (relem*4) (lelem*4) L 4 4,
      MatOp.submit (lelem*4) (relem*4) U 4 4 ])
  ++ [ MatOp.updateDiag (lelem*4) (smulMat (-1) L),
       MatOp.updateDiag (relem*4) (smulMat (-1) U) ]

/-- Embeds `FlowFV::compute_jacobian` (the `LinearOperator` version): the sequence of
operations submitted to the linear operator — one diagonal update per boundary
face, then two submissions and two diagonal updates per interior face.
`typeD` is the test `A->type() == 'd'`. -/
def compute_jacobian (sq : ℚ → ℚ) (jac : JacFn) (g Minf : ℚ) (bc : FlowBC)
    (m : UMesh2dh) (u : ℕ → State) (typeD : Bool) : List MatOp :=
  (List.range m.nbface).flatMap (boundary_face_ops sq jac g Minf bc m u)
    ++ (List.range' m.nbface (m.naface - m.nbface)).flatMap (interior_face_ops jac m u typeD)

/-- A concrete one-cell mesh used by witnesses: a single triangle with nodes
(0,0), (1,0), (0,1), three boundary faces and no interior face. -/
def mesh1 : UMesh2dh where
  nelem := 1
  nbface := 3
  naface := 3
  intfacL := fun _ => 0
  intfacR := fun _ => 1
  intfacP1 := fun f => f
  intfacP2 := fun f => (f+1) % 3
  fnx := fun f => if f = 0 then 0 else if f = 1 then 1 else -1
  fny := fun f => if f = 0 then -1 else if f = 1 then 1 else 0
  flen := fun f => if f = 1 then 2 else 1
  fmarker := fun _ => 2
  coords := fun n d => if n = 1 ∧ d = 0 then 1 else if n = 2 ∧ d = 1 then 1 else 0
  nnode := fun _ => 3
  inpoel := fun _ inode => inode
  area := fun _ => 1/2

/-- A degenerate concrete mesh with one cell and no faces at all: its single
cell is isolated, so its wave-speed integral is the empty sum. -/
def mesh0 : UMesh2dh where
  nelem := 1
  nbface := 0
  naface := 0
  intfacL := fun _ => 0
  intfacR := fun _ => 0
  intfacP1 := fun _ => 0
  intfacP2 := fun _ => 0
  fnx := fun _ => 0
  fny := fun _ => 0
  flen := fun _ => 0
  fmarker := fun _ => 0
  coords := fun _ _ => 0
  nnode := fun _ => 3
  inpoel := fun _ _ => 0
  area := fun _ => 1

/-- A concrete two-cell mesh used by witnesses: face 0 is a boundary face of
cell 0 (ghost slot 2), face 1 is the interior face between cells 0 and 1. -/
def mesh2 : UMesh2dh where
  nelem := 2
  nbface := 1
  naface := 2
  intfacL := fun _ => 0
  intfacR := fun f => 2 - f
  intfacP1 := fun _ => 0
  intfacP2 := fun _ => 1
  fnx := fun _ => 1
  fny := fun _ => 0
  flen := fun f => if f = 0 then 1 else 3
  fmarker := fun _ => 2
  coords := fun n d => if n = 1 ∧ d = 0 then 1 else 0
  nnode := fun _ => 3
  inpoel := fun _ inode => inode
  area := fun _ => 1

/-- A concrete boundary configuration for witnesses: slip wall on marker 2,
isothermal on 3, adiabatic on 4, far field on 5. -/
def bcW : FlowBC := ⟨2, 3, 4, 5, 1, ![1, 1, 0, 1]⟩

/-- A concrete constant numerical flux used by witnesses. -/
def fluxW : FluxFn := fun _ _ _ _ => ![1, 1, 1, 1]

/-- A concrete interior state array used by witnesses. -/
def uW : ℕ → State := fun _ => ![1, 0, 0, 1]

/-- A concrete direction vector used by witnesses. -/
def vW : ℕ → State := fun _ => ![1, 0, 0, 0]

/-- A concrete flux-Jacobian kernel: left output all ones, right output all
fives. -/
def jacW1 : JacFn := fun _ _ _ _ => (fun _ _ => 1, fun _ _ => 5)

/-- A second concrete flux-Jacobian kernel: same left output as `jacW1` but a
different right output (all nines). -/
def jacW2 : JacFn := fun _ _ _ _ => (fun _ _ => 1, fun _ _ => 9)

/-! ## Theorems -/

/-- C7: ghost-cell centre reflection about the face midpoint.  For every
boundary face, the ghost centre computed by
`compute_ghost_cell_coords_about_midpoint` satisfies
`r_g + r_L = 2 · midpoint(face)` in each coordinate, where `r_L` is the
centroid of the interior (left) cell and the midpoint is the average of the
face's two endpoint nodes. -/
theorem ghost_centre_midpoint_reflection (m : UMesh2dh) (iface : ℕ)
    (hface : iface < m.nbface) (idim : Fin 2) :
    ghost_centre_midpoint m iface idim + cell_centre m (m.intfacL iface) idim
      = 2 * ((m.coords (m.intfacP1 iface) idim + m.coords (m.intfacP2 iface) idim) / 2) := by
  unfold ghost_centre_midpoint face_midpoint
  ring

/-- Witness for C7 on a concrete one-triangle mesh. -/
theorem ghost_centre_midpoint_reflection_witness :
    (0 : ℕ) < (mesh1).nbface ∧
      ghost_centre_midpoint mesh1 0 0 + cell_centre mesh1 ((mesh1).intfacL 0) 0
        = 2 * (((mesh1).coords ((mesh1).intfacP1 0) 0 + (mesh1).coords ((mesh1).intfacP2 0) 0) / 2) :=
  ⟨by decide, ghost_centre_midpoint_reflection mesh1 0 (by decide) 0⟩

/-- C8: the free-stream conservative state stored by the `FlowFV` constructor
is `(1, cos α, sin α, 1/((γ−1)γM∞²) + ½)`, and `initializeUnknowns` with
`fromfile = false` sets every interior cell's state equal to it. -/
theorem initializeUnknowns_freestream (g Minf cosa sina : ℚ) (nelem : ℕ)
    (u0 : ℕ → State) (i : ℕ) (hi : i < nelem) :
    FlowFV_uinf g Minf cosa sina
        = ![1, cosa, sina, 1/((g-1)*g*Minf*Minf) + 1/2] ∧
      initializeUnknowns false nelem (FlowFV_uinf g Minf cosa sina) u0 i
        = ![1, cosa, sina, 1/((g-1)*g*Minf*Minf) + 1/2] := by
  constructor
  · rfl
  · simp [initializeUnknowns, hi, FlowFV_uinf]

/-- Witness for C8 at γ = 7/5, M∞ = 2, α = 0 (so cos α = 1, sin α = 0) on a
two-cell solution array. -/
theorem initializeUnknowns_freestream_witness :
    (0 : ℕ) < 2 ∧
      initializeUnknowns false 2 (FlowFV_uinf (7/5) 2 1 0) (fun _ => ![0,0,0,0]) 0
        = ![1, 1, 0, 1/((7/5-1)*(7/5)*2*2) + 1/2] :=
  ⟨by decide, (initializeUnknowns_freestream (7/5) 2 1 0 2 (fun _ => ![0,0,0,0]) 0 (by decide)).2⟩

/-- C4: slip-wall ghost state.  On a boundary face whose marker is the
slip-wall marker (and distinct from the other configured markers and from the
hard-coded characteristic id −1), for any interior state with ρ > 0,
`compute_boundary_state` returns `(ρ, ρv − 2(ρv·n)n, ρE)`: density and total
energy preserved, normal momentum mirrored. -/
theorem compute_boundary_state_slip_wall (sq : ℚ → ℚ) (g Minf : ℚ) (bc : FlowBC)
    (m : UMesh2dh) (ied : ℕ) (ins bs0 : State)
    (hrho : 0 < ins 0)
    (hm : m.fmarker ied = bc.slip_wall_id)
    (hc : bc.slip_wall_id ≠ -1)
    (hio : bc.slip_wall_id ≠ bc.inflow_outflow_id)
    (had : bc.slip_wall_id ≠ bc.adiabatic_wall_id)
    (hiso : bc.slip_wall_id ≠ bc.isothermal_wall_id) :
    compute_boundary_state sq g Minf bc m ied ins bs0
      = ![ins 0,
          ins 1 - 2*(ins 1 * m.fnx ied + ins 2 * m.fny ied) * m.fnx ied,
          ins 2 - 2*(ins 1 * m.fnx ied + ins 2 * m.fny ied) * m.fny ied,
          ins 3] := by
  have h0 : ins 0 ≠ 0 := ne_of_gt hrho
  unfold compute_boundary_state
  rw [hm, if_neg hc, if_neg hio, if_neg had, if_neg hiso, if_pos rfl]
  have hx : ins 1 - 2*((ins 1 * m.fnx ied + ins 2 * m.fny ied) / ins 0)*(m.fnx ied)*(ins 0)
      = ins 1 - 2*(ins 1 * m.fnx ied + ins 2 * m.fny ied) * m.fnx ied := by
    field_simp
  have hy : ins 2 - 2*((ins 1 * m.fnx ied + ins 2 * m.fny ied) / ins 0)*(m.fny ied)*(ins 0)
      = ins 2 - 2*(ins 1 * m.fnx ied + ins 2 * m.fny ied) * m.fny ied := by
    field_simp
  funext k
  fin_cases k <;> simp_all

/-- Witness for C4 on the concrete triangle mesh (marker 2 set as slip wall),
with interior state (1, 3, 5, 7) and face 1's normal (1, 1). -/
theorem compute_boundary_state_slip_wall_witness :
    (0:ℚ) < 1 ∧ (mesh1).fmarker 1 = (2:ℤ) ∧
      compute_boundary_state (fun x => x) (7/5) 2
          ⟨2, 3, 4, 5, 1, ![1,1,0,1]⟩ mesh1 1 ![1,3,5,7] ![0,0,0,0]
        = ![1, 3 - 2*(3*(mesh1).fnx 1 + 5*(mesh1).fny 1)*(mesh1).fnx 1,
            5 - 2*(3*(mesh1).fnx 1 + 5*(mesh1).fny 1)*(mesh1).fny 1, 7] := by
  refine ⟨by norm_num, by decide, ?_⟩
  have h := compute_boundary_state_slip_wall (fun x => x) (7/5) 2
    ⟨2, 3, 4, 5, 1, ![1,1,0,1]⟩ mesh1 1 ![1,3,5,7] ![0,0,0,0]
    (by decide) (by decide) (by decide) (by decide) (by decide) (by decide)
  exact h

/-- C10: frame effect of `gettimesteps`.  `FlowFV::compute_residual` called
with `gettimesteps = false` leaves the time-step array `dtm` entirely
unchanged. -/
theorem compute_residual_dtm_frame (sq : ℚ → ℚ) (flux : FluxFn) (g Minf : ℚ)
    (bc : FlowBC) (m : UMesh2dh) (secondOrder : Bool)
    (faceRecon : (ℕ → State) → (ℕ → State) × (ℕ → State))
    (u res0 : ℕ → State) (dtm0 : ℕ → ℚ) :
    (compute_residual sq flux g Minf bc m secondOrder faceRecon u res0 false dtm0).dtm
      = dtm0 := by
  funext iel
  simp [compute_residual]

/-- C5 (amended): `FlowFV::compute_residual` zeroes only the local wave-speed
integral; the residual array is accumulated with `+=` onto its incoming
contents, so the output residual is the incoming array plus the flux
accumulation computed from a zero start. -/
theorem compute_residual_adds_to_prior (sq : ℚ → ℚ) (flux : FluxFn) (g Minf : ℚ)
    (bc : FlowBC) (m : UMesh2dh) (secondOrder : Bool)
    (faceRecon : (ℕ → State) → (ℕ → State) × (ℕ → State))
    (u res0 : ℕ → State) (gettimesteps : Bool) (dtm0 : ℕ → ℚ) (i : ℕ) (k : Fin 4) :
    (compute_residual sq flux g Minf bc m secondOrder faceRecon u res0
        gettimesteps dtm0).res i k
      = res0 i k
        + (compute_residual sq flux g Minf bc m secondOrder faceRecon u
            (fun _ _ => 0) gettimesteps dtm0).res i k := by
  simp [compute_residual]

/-- C5 (counterexample): on a concrete one-triangle mesh with a constant flux,
running `compute_residual` from residual array all-ones gives a different
output than running it from the zero array: the residual is not zeroed first,
so the output depends on the prior contents. -/
theorem compute_residual_not_zeroed :
    (compute_residual (fun x => x) fluxW (7/5) 2 bcW mesh1 false (fun u => (u, u))
        uW (fun _ _ => 1) false (fun _ => 0)).res 0 0
      ≠ (compute_residual (fun x => x) fluxW (7/5) 2 bcW mesh1 false (fun u => (u, u))
          uW (fun _ _ => 0) false (fun _ => 0)).res 0 0 := by
  simp [compute_residual, res_face_contrib, face_flux_integral, res_uleft, res_uright,
    fluxW, mesh1, Finset.sum_range_succ]

/-- C6 (amended): whenever time steps are requested, the time step of every
interior cell is `A_i / w_i` where `w_i` is the computed wave-speed integral —
an unguarded division, with no special case for `w_i = 0`. -/
theorem compute_residual_dtm_division (sq : ℚ → ℚ) (flux : FluxFn) (g Minf : ℚ)
    (bc : FlowBC) (m : UMesh2dh) (secondOrder : Bool)
    (faceRecon : (ℕ → State) → (ℕ → State) × (ℕ → State))
    (u res0 : ℕ → State) (dtm0 : ℕ → ℚ) (i : ℕ) (hi : i < m.nelem) :
    (compute_residual sq flux g Minf bc m secondOrder faceRecon u res0 true dtm0).dtm i
      = m.area i
        / (compute_residual sq flux g Minf bc m secondOrder faceRecon u res0
            true dtm0).integ i := by
  simp [compute_residual, hi]

/-- Witness for the amended C6 on the one-triangle mesh. -/
theorem compute_residual_dtm_division_witness :
    (0 : ℕ) < (mesh1).nelem ∧
      (compute_residual (fun x => x) fluxW (7/5) 2 bcW mesh1 false (fun u => (u, u))
          uW (fun _ _ => 0) true (fun _ => 0)).dtm 0
        = (mesh1).area 0
          / (compute_residual (fun x => x) fluxW (7/5) 2 bcW mesh1 false (fun u => (u, u))
              uW (fun _ _ => 0) true (fun _ => 0)).integ 0 :=
  ⟨by decide,
    compute_residual_dtm_division (fun x => x) fluxW (7/5) 2 bcW mesh1 false
      (fun u => (u, u)) uW (fun _ _ => 0) (fun _ => 0) 0 (by decide)⟩

/-- C6 (counterexample): on a concrete mesh whose single cell touches no face,
the wave-speed integral is 0, yet with `gettimesteps` the cell's time step is
the unguarded quotient `A/0` (the value 0 in exact rational arithmetic, +inf
in IEEE) — not a large positive cap: the source has no branch on `w_i = 0`. -/
theorem compute_residual_dtm_no_cap :
    (compute_residual (fun x => x) fluxW (7/5) 2 bcW mesh0 false (fun u => (u, u))
        uW (fun _ _ => 0) true (fun _ => 37)).integ 0 = 0
    ∧ (compute_residual (fun x => x) fluxW (7/5) 2 bcW mesh0 false (fun u => (u, u))
        uW (fun _ _ => 0) true (fun _ => 37)).dtm 0 = 0
    ∧ ¬ (0 < (compute_residual (fun x => x) fluxW (7/5) 2 bcW mesh0 false (fun u => (u, u))
        uW (fun _ _ => 0) true (fun _ => 37)).dtm 0) := by
  refine ⟨?_, ?_, ?_⟩ <;>
    simp [compute_residual, integ_face_contrib, res_uleft, res_uright, mesh0]

/-- Helper: summed over all interior cells, one face's residual contribution
is `ℓ·F` (to its left cell) minus `ℓ·F` again exactly when the right cell is
interior. -/
theorem sum_res_face_contrib (flux : FluxFn) (m : UMesh2dh) (uleft uright : ℕ → State)
    (ied : ℕ) (k : Fin 4) (hL : m.intfacL ied < m.nelem) :
    ∑ iel ∈ Finset.range m.nelem, res_face_contrib flux m uleft uright ied iel k
      = face_flux_integral flux m uleft uright ied k
        - (if m.intfacR ied < m.nelem then face_flux_integral flux m uleft uright ied k
          else 0) := by
  unfold res_face_contrib
  rw [Finset.sum_add_distrib]
  have h1 : ∑ iel ∈ Finset.range m.nelem,
      (if m.intfacL ied = iel then face_flux_integral flux m uleft uright ied k else 0)
      = face_flux_integral flux m uleft uright ied k := by
    rw [Finset.sum_ite_eq]
    exact if_pos (Finset.mem_range.mpr hL)
  by_cases hR : m.intfacR ied < m.nelem
  · have h2 : ∑ iel ∈ Finset.range m.nelem,
        (if m.intfacR ied < m.nelem then
          (if m.intfacR ied = iel then -(face_flux_integral flux m uleft uright ied k) else 0)
        else 0)
        = -(face_flux_integral flux m uleft uright ied k) := by
      simp only [if_pos hR]
      rw [Finset.sum_ite_eq]
      exact if_pos (Finset.mem_range.mpr hR)
    rw [h1, h2, if_pos hR]
    ring
  · have h2 : ∑ iel ∈ Finset.range m.nelem,
        (if m.intfacR ied < m.nelem then
          (if m.intfacR ied = iel then -(face_flux_integral flux m uleft uright ied k) else 0)
        else 0)
        = 0 := by
      simp [hR]
    rw [h1, h2, if_neg hR]
    ring

/-- C1: discrete conservation of the flux accumulation in
`FlowFV::compute_residual`.  Under the mesh invariants (left cells always
interior; right cells are ghost slots exactly on boundary faces), every
interior face's contribution to `Σ_i R_i` is zero, and — starting from a zero
residual array — the total `Σ_i R_i` equals the sum of the boundary-face flux
integrals `ℓ·F`. -/
theorem compute_residual_conservation (sq : ℚ → ℚ) (flux : FluxFn) (g Minf : ℚ)
    (bc : FlowBC) (m : UMesh2dh) (secondOrder : Bool)
    (faceRecon : (ℕ → State) → (ℕ → State) × (ℕ → State))
    (u res0 : ℕ → State) (gettimesteps : Bool) (dtm0 : ℕ → ℚ)
    (hnb : m.nbface ≤ m.naface)
    (hL : ∀ f, f < m.naface → m.intfacL f < m.nelem)
    (hB : ∀ f, f < m.nbface → m.nelem ≤ m.intfacR f)
    (hI : ∀ f, m.nbface ≤ f → f < m.naface → m.intfacR f < m.nelem)
    (hres0 : ∀ i k, res0 i k = 0) (k : Fin 4) :
    (∀ f, m.nbface ≤ f → f < m.naface →
        ∑ iel ∈ Finset.range m.nelem,
          res_face_contrib flux m (res_uleft m secondOrder faceRecon u)
            (res_uright sq g Minf bc m secondOrder faceRecon u) f iel k = 0)
    ∧ ∑ iel ∈ Finset.range m.nelem,
        (compute_residual sq flux g Minf bc m secondOrder faceRecon u res0
          gettimesteps dtm0).res iel k
      = ∑ f ∈ Finset.range m.nbface,
          face_flux_integral flux m (res_uleft m secondOrder faceRecon u)
            (res_uright sq g Minf bc m secondOrder faceRecon u) f k := by
  set UL := res_uleft m secondOrder faceRecon u with hUL
  set UR := res_uright sq g Minf bc m secondOrder faceRecon u with hUR
  have hface : ∀ f, f < m.naface →
      ∑ iel ∈ Finset.range m.nelem, res_face_contrib flux m UL UR f iel k
        = face_flux_integral flux m UL UR f k
          - (if m.intfacR f < m.nelem then face_flux_integral flux m UL UR f k else 0) :=
    fun f hf => sum_res_face_contrib flux m UL UR f k (hL f hf)
  constructor
  · intro f h1 h2
    rw [hface f h2, if_pos (hI f h1 h2)]
    ring
  · have hres : ∀ iel,
        (compute_residual sq flux g Minf bc m secondOrder faceRecon u res0
          gettimesteps dtm0).res iel k
          = res0 iel k + ∑ ied ∈ Finset.range m.naface, res_face_contrib flux m UL UR ied iel k :=
      fun iel => rfl
    calc ∑ iel ∈ Finset.range m.nelem,
          (compute_residual sq flux g Minf bc m secondOrder faceRecon u res0
            gettimesteps dtm0).res iel k
        = ∑ iel ∈ Finset.range m.nelem,
            (res0 iel k + ∑ ied ∈ Finset.range m.naface, res_face_contrib flux m UL UR ied iel k) := by
          exact Finset.sum_congr rfl (fun iel _ => hres iel)
      _ = (∑ iel ∈ Finset.range m.nelem, res0 iel k)
            + ∑ iel ∈ Finset.range m.nelem, ∑ ied ∈ Finset.range m.naface,
                res_face_contrib flux m UL UR ied iel k := Finset.sum_add_distrib
      _ = ∑ iel ∈ Finset.range m.nelem, ∑ ied ∈ Finset.range m.naface,
            res_face_contrib flux m UL UR ied iel k := by
          rw [Finset.sum_eq_zero (fun i _ => hres0 i k), zero_add]
      _ = ∑ ied ∈ Finset.range m.naface, ∑ iel ∈ Finset.range m.nelem,
            res_face_contrib flux m UL UR ied iel k := Finset.sum_comm
      _ = ∑ ied ∈ Finset.range m.naface,
            (face_flux_integral flux m UL UR ied k
              - (if m.intfacR ied < m.nelem then face_flux_integral flux m UL UR ied k else 0)) :=
          Finset.sum_congr rfl (fun f hf => hface f (Finset.mem_range.mp hf))
      _ = (∑ ied ∈ Finset.Ico 0 m.nbface,
            (face_flux_integral flux m UL UR ied k
              - (if m.intfacR ied < m.nelem then face_flux_integral flux m UL UR ied k else 0)))
          + ∑ ied ∈ Finset.Ico m.nbface m.naface,
            (face_flux_integral flux m UL UR ied k
              - (if m.intfacR ied < m.nelem then face_flux_integral flux m UL UR ied k else 0)) := by
          rw [Finset.range_eq_Ico,
            ← Finset.sum_Ico_consecutive _ (Nat.zero_le m.nbface) hnb]
      _ = (∑ ied ∈ Finset.Ico 0 m.nbface, face_flux_integral flux m UL UR ied k) + 0 := by
          congr 1
          · exact Finset.sum_congr rfl (fun f hf => by
              rw [if_neg (not_lt.mpr (hB f (Finset.mem_Ico.mp hf).2))]
              ring)
          · exact Finset.sum_eq_zero (fun f hf => by
              obtain ⟨hf1, hf2⟩ := Finset.mem_Ico.mp hf
              rw [if_pos (hI f hf1 hf2)]
              ring)
      _ = ∑ f ∈ Finset.range m.nbface, face_flux_integral flux m UL UR f k := by
          rw [add_zero, Finset.range_eq_Ico]

/-- Witness for C1 on the concrete two-cell mesh (one boundary face, one
interior face). -/
theorem compute_residual_conservation_witness :
    (mesh2).nbface ≤ (mesh2).naface ∧
      ∑ iel ∈ Finset.range (mesh2).nelem,
        (compute_residual (fun x => x) fluxW (7/5) 2 bcW mesh2 false (fun u => (u, u))
          uW (fun _ _ => 0) false (fun _ => 0)).res iel 0
        = ∑ f ∈ Finset.range (mesh2).nbface,
            face_flux_integral fluxW mesh2 (res_uleft mesh2 false (fun u => (u, u)) uW)
              (res_uright (fun x => x) (7/5) 2 bcW mesh2 false (fun u => (u, u)) uW) f 0 :=
  ⟨by decide,
    (compute_residual_conservation (fun x => x) fluxW (7/5) 2 bcW mesh2 false
      (fun u => (u, u)) uW (fun _ _ => 0) false (fun _ => 0)
      (by decide)
      (fun f _ => by simp [mesh2])
      (fun f hf => by simp [mesh2] at hf ⊢; omega)
      (fun f h1 h2 => by simp [mesh2] at h1 h2 ⊢; omega)
      (fun _ _ => rfl) 0).2⟩

/-- C9: the matrix-free Jacobian-vector product.  With the perturbation
`eps = sqrt(ZERO_TOL)/10` fixed at construction (`Spatial_eps`), a zeroed
output array, and `resu` equal to the residual of `u` (computed from a zero
start), `compute_jac_vec` returns
`(R(u + (ε/‖v‖)·v) − R(u)) / (ε/‖v‖)`, plus `A_i/∆t_i · v_i` on interior
cells exactly when `add_time_deriv` is set.  `‖v‖` is `sq` applied to the
squared 2-norm `dotself`. -/
theorem compute_jac_vec_formula (sq : ℚ → ℚ) (flux : FluxFn) (g Minf : ℚ)
    (bc : FlowBC) (m : UMesh2dh) (secondOrder : Bool)
    (faceRecon : (ℕ → State) → (ℕ → State) × (ℕ → State)) (z : ℚ)
    (resu u v prod0 : ℕ → State) (add_time_deriv : Bool) (dtm : ℕ → ℚ)
    (hprod0 : ∀ i k, prod0 i k = 0)
    (hresu : ∀ i k, resu i k
      = (compute_residual sq flux g Minf bc m secondOrder faceRecon u
          (fun _ _ => 0) false (fun _ => 0)).res i k)
    (i : ℕ) (k : Fin 4) :
    compute_jac_vec sq flux g Minf bc m secondOrder faceRecon (Spatial_eps z)
        resu u v add_time_deriv dtm prod0 i k
      = ((compute_residual sq flux g Minf bc m secondOrder faceRecon
            (fun j l => u j l + Spatial_eps z / sq (dotself m.nelem v) * v j l)
            (fun _ _ => 0) false (fun _ => 0)).res i k
          - (compute_residual sq flux g Minf bc m secondOrder faceRecon u
              (fun _ _ => 0) false (fun _ => 0)).res i k)
          / (Spatial_eps z / sq (dotself m.nelem v))
        + (if add_time_deriv ∧ i < m.nelem then m.area i / dtm i * v i k else 0) := by
  have hp : prod0 = (fun _ _ => 0) := funext fun a => funext fun b => hprod0 a b
  simp only [compute_jac_vec, hp, ← hresu i k]
  by_cases h : add_time_deriv = true ∧ i < m.nelem
  · rw [if_pos ⟨h.1, h.2⟩, if_pos h]
  · rw [if_neg, if_neg h, add_zero]
    intro hcon
    exact h ⟨hcon.1, hcon.2⟩

/-- Witness for C9 on the degenerate one-cell mesh with the identity standing
for the library square root. -/
theorem compute_jac_vec_formula_witness :
    (∀ (i : ℕ) (k : Fin 4), (fun (_ : ℕ) (_ : Fin 4) => (0:ℚ)) i k = 0) ∧
      compute_jac_vec (fun x => x) fluxW (7/5) 2 bcW mesh0 false (fun u => (u, u))
          (Spatial_eps 1)
          ((compute_residual (fun x => x) fluxW (7/5) 2 bcW mesh0 false (fun u => (u, u))
            uW (fun _ _ => 0) false (fun _ => 0)).res)
          uW vW true (fun _ => 1) (fun _ _ => 0) 0 0
        = ((compute_residual (fun x => x) fluxW (7/5) 2 bcW mesh0 false (fun u => (u, u))
              (fun j l => uW j l + Spatial_eps 1 / (fun x => x) (dotself (mesh0).nelem vW) * vW j l)
              (fun _ _ => 0) false (fun _ => 0)).res 0 0
            - (compute_residual (fun x => x) fluxW (7/5) 2 bcW mesh0 false (fun u => (u, u))
                uW (fun _ _ => 0) false (fun _ => 0)).res 0 0)
            / (Spatial_eps 1 / (fun x => x) (dotself (mesh0).nelem vW))
          + (if true = true ∧ (0:ℕ) < (mesh0).nelem then (mesh0).area 0 / (fun _ => (1:ℚ)) 0 * vW 0 0 else 0) :=
  ⟨fun _ _ => rfl,
    compute_jac_vec_formula (fun x => x) fluxW (7/5) 2 bcW mesh0 false (fun u => (u, u)) 1
      ((compute_residual (fun x => x) fluxW (7/5) 2 bcW mesh0 false (fun u => (u, u))
        uW (fun _ _ => 0) false (fun _ => 0)).res)
      uW vW (fun _ _ => 0) true (fun _ => 1)
      (fun _ _ => rfl) (fun _ _ => rfl) 0 0⟩

/-- C2: interior-face Jacobian assembly.  For every interior face between
cells L and R, `FlowFV::compute_jacobian` submits the off-diagonal blocks
`A[R,L] = −ℓ·∂F/∂u_L` and `A[L,R] = +ℓ·∂F/∂u_R` (with `∂F/∂u` recovered from
the kernel through the source's sign convention), updates the diagonal blocks
with the negatives of those contributions (`D_L += +ℓ·∂F/∂u_L`,
`D_R += −ℓ·∂F/∂u_R`), and passes tag 1 (lower) or 2 (upper) plus the
interior-face index when `A.type() == 'd'`, and `NVARS = 4` for both extra
arguments otherwise; all these operations appear in the operation sequence of
`compute_jacobian`. -/
theorem compute_jacobian_interior_face (sq : ℚ → ℚ) (jac : JacFn) (g Minf : ℚ)
    (bc : FlowBC) (m : UMesh2dh) (u : ℕ → State) (typeD : Bool) (iface : ℕ)
    (h1 : m.nbface ≤ iface) (h2 : iface < m.naface) :
    interior_face_ops jac m u typeD iface
      = (if typeD then
          [ MatOp.submit (m.intfacR iface * 4) (m.intfacL iface * 4)
              (negMat (smulMat (m.flen iface)
                (jflux_dFduL jac (u (m.intfacL iface)) (u (m.intfacR iface))
                  (m.fnx iface) (m.fny iface))))
              1 (iface - m.nbface),
            MatOp.submit (m.intfacL iface * 4) (m.intfacR iface * 4)
              (smulMat (m.flen iface)
                (jflux_dFduR jac (u (m.intfacL iface)) (u (m.intfacR iface))
                  (m.fnx iface) (m.fny iface)))
              2 (iface - m.nbface) ]
        else
          [ MatOp.submit (m.intfacR iface * 4) (m.intfacL iface * 4)
              (negMat (smulMat (m.flen iface)
                (jflux_dFduL jac (u (m.intfacL iface)) (u (m.intfacR iface))
                  (m.fnx iface) (m.fny iface))))
              4 4,
            MatOp.submit (m.intfacL iface * 4) (m.intfacR iface * 4)
              (smulMat (m.flen iface)
                (jflux_dFduR jac (u (m.intfacL iface)) (u (m.intfacR iface))
                  (m.fnx iface) (m.fny iface)))
              4 4 ])
        ++ [ MatOp.updateDiag (m.intfacL iface * 4)
              (smulMat (m.flen iface)
                (jflux_dFduL jac (u (m.intfacL iface)) (u (m.intfacR iface))
                  (m.fnx iface) (m.fny iface))),
             MatOp.updateDiag (m.intfacR iface * 4)
              (negMat (smulMat (m.flen iface)
                (jflux_dFduR jac (u (m.intfacL iface)) (u (m.intfacR iface))
                  (m.fnx iface) (m.fny iface)))) ]
    ∧ ∀ op ∈ interior_face_ops jac m u typeD iface,
        op ∈ compute_jacobian sq jac g Minf bc m u typeD := by
  have hL : smulMat (m.flen iface)
      (jac (u (m.intfacL iface)) (u (m.intfacR iface)) (m.fnx iface) (m.fny iface)).1
      = negMat (smulMat (m.flen iface)
          (jflux_dFduL jac (u (m.intfacL iface)) (u (m.intfacR iface))
            (m.fnx iface) (m.fny iface))) := by
    funext i j
    simp [smulMat, negMat, jflux_dFduL]
  have hU : smulMat (m.flen iface)
      (jac (u (m.intfacL iface)) (u (m.intfacR iface)) (m.fnx iface) (m.fny iface)).2
      = smulMat (m.flen iface)
          (jflux_dFduR jac (u (m.intfacL iface)) (u (m.intfacR iface))
            (m.fnx iface) (m.fny iface)) := rfl
  have hDL : smulMat (-1) (smulMat (m.flen iface)
      (jac (u (m.intfacL iface)) (u (m.intfacR iface)) (m.fnx iface) (m.fny iface)).1)
      = smulMat (m.flen iface)
          (jflux_dFduL jac (u (m.intfacL iface)) (u (m.intfacR iface))
            (m.fnx iface) (m.fny iface)) := by
    funext i j
    simp [smulMat, jflux_dFduL]
  have hDU : smulMat (-1) (smulMat (m.flen iface)
      (jac (u (m.intfacL iface)) (u (m.intfacR iface)) (m.fnx iface) (m.fny iface)).2)
      = negMat (smulMat (m.flen iface)
          (jflux_dFduR jac (u (m.intfacL iface)) (u (m.intfacR iface))
            (m.fnx iface) (m.fny iface))) := by
    funext i j
    simp [smulMat, negMat, jflux_dFduR]
  constructor
  · show (if typeD then _ else _) ++ _ = _
    rw [hDL, hDU, hL, hU]
  · intro op hop
    unfold compute_jacobian
    apply List.mem_append_right
    apply List.mem_flatMap.mpr
    refine ⟨iface, ?_, hop⟩
    rw [List.mem_range'_1]
    omega

/-- Witness for C2 on the concrete two-cell mesh, at its interior face 1, in
the `'d'` storage flavor. -/
theorem compute_jacobian_interior_face_witness :
    (mesh2).nbface ≤ 1 ∧ (1:ℕ) < (mesh2).naface ∧
      (interior_face_ops jacW1 mesh2 uW true 1
        = (if true then
            [ MatOp.submit ((mesh2).intfacR 1 * 4) ((mesh2).intfacL 1 * 4)
                (negMat (smulMat ((mesh2).flen 1)
                  (jflux_dFduL jacW1 (uW ((mesh2).intfacL 1)) (uW ((mesh2).intfacR 1))
                    ((mesh2).fnx 1) ((mesh2).fny 1))))
                1 (1 - (mesh2).nbface),
              MatOp.submit ((mesh2).intfacL 1 * 4) ((mesh2).intfacR 1 * 4)
                (smulMat ((mesh2).flen 1)
                  (jflux_dFduR jacW1 (uW ((mesh2).intfacL 1)) (uW ((mesh2).intfacR 1))
                    ((mesh2).fnx 1) ((mesh2).fny 1)))
                2 (1 - (mesh2).nbface) ]
          else
            [ MatOp.submit ((mesh2).intfacR 1 * 4) ((mesh2).intfacL 1 * 4)
                (negMat (smulMat ((mesh2).flen 1)
                  (jflux_dFduL jacW1 (uW ((mesh2).intfacL 1)) (uW ((mesh2).intfacR 1))
                    ((mesh2).fnx 1) ((mesh2).fny 1))))
                4 4,
              MatOp.submit ((mesh2).intfacL 1 * 4) ((mesh2).intfacR 1 * 4)
                (smulMat ((mesh2).flen 1)
                  (jflux_dFduR jacW1 (uW ((mesh2).intfacL 1)) (uW ((mesh2).intfacR 1))
                    ((mesh2).fnx 1) ((mesh2).fny 1)))
                4 4 ])
          ++ [ MatOp.updateDiag ((mesh2).intfacL 1 * 4)
                (smulMat ((mesh2).flen 1)
                  (jflux_dFduL jacW1 (uW ((mesh2).intfacL 1)) (uW ((mesh2).intfacR 1))
                    ((mesh2).fnx 1) ((mesh2).fny 1))),
               MatOp.updateDiag ((mesh2).intfacR 1 * 4)
                (negMat (smulMat ((mesh2).flen 1)
                  (jflux_dFduR jacW1 (uW ((mesh2).intfacL 1)) (uW ((mesh2).intfacR 1))
                    ((mesh2).fnx 1) ((mesh2).fny 1)))) ]
       ∧ ∀ op ∈ interior_face_ops jacW1 mesh2 uW true 1,
           op ∈ compute_jacobian (fun x => x) jacW1 (7/5) 2 bcW mesh2 uW true) :=
  ⟨by decide, by decide,
    compute_jacobian_interior_face (fun x => x) jacW1 (7/5) 2 bcW mesh2 uW true 1
      (by decide) (by decide)⟩

/-- C3 (amended): boundary-face Jacobian assembly.  For every boundary face,
`FlowFV::compute_jacobian` computes the ghost state `u_g = B(u_L, f)` and
emits exactly one operation: an update of the L–L diagonal block by
`+ℓ·∂F/∂u_L` with the flux Jacobian evaluated at `(u_L, u_g)`.  No
off-diagonal block is submitted for a boundary face, and the kernel's
right-Jacobian (the ghost-state dependence `∂u_g/∂u_L`) is not folded in:
the `right` output is discarded. -/
theorem compute_jacobian_boundary_face (sq : ℚ → ℚ) (jac : JacFn) (g Minf : ℚ)
    (bc : FlowBC) (m : UMesh2dh) (u : ℕ → State) (typeD : Bool) (iface : ℕ)
    (hf : iface < m.nbface) :
    boundary_face_ops sq jac g Minf bc m u iface
      = [ MatOp.updateDiag (m.intfacL iface * 4)
            (smulMat (m.flen iface)
              (jflux_dFduL jac (u (m.intfacL iface))
                (compute_boundary_state sq g Minf bc m iface (u (m.intfacL iface))
                  (fun _ => 0))
                (m.fnx iface) (m.fny iface))) ]
    ∧ (∀ r c blk a1 a2,
        MatOp.submit r c blk a1 a2 ∉ boundary_face_ops sq jac g Minf bc m u iface)
    ∧ ∀ op ∈ boundary_face_ops sq jac g Minf bc m u iface,
        op ∈ compute_jacobian sq jac g Minf bc m u typeD := by
  have hblk : smulMat (-(m.flen iface))
      (jac (u (m.intfacL iface))
        (compute_boundary_state sq g Minf bc m iface (u (m.intfacL iface)) (fun _ => 0))
        (m.fnx iface) (m.fny iface)).1
      = smulMat (m.flen iface)
          (jflux_dFduL jac (u (m.intfacL iface))
            (compute_boundary_state sq g Minf bc m iface (u (m.intfacL iface)) (fun _ => 0))
            (m.fnx iface) (m.fny iface)) := by
    funext i j
    simp [smulMat, jflux_dFduL]
  refine ⟨?_, ?_, ?_⟩
  · show [MatOp.updateDiag (m.intfacL iface * 4) _] = _
    rw [hblk]
  · intro r c blk a1 a2 hmem
    simp only [boundary_face_ops, List.mem_singleton] at hmem
    exact MatOp.noConfusion hmem
  · intro op hop
    unfold compute_jacobian
    apply List.mem_append_left
    apply List.mem_flatMap.mpr
    exact ⟨iface, List.mem_range.mpr hf, hop⟩

/-- Witness for the amended C3 on the one-triangle mesh, boundary face 0. -/
theorem compute_jacobian_boundary_face_witness :
    (0:ℕ) < (mesh1).nbface ∧
      (boundary_face_ops (fun x => x) jacW1 (7/5) 2 bcW mesh1 uW 0
        = [ MatOp.updateDiag ((mesh1).intfacL 0 * 4)
              (smulMat ((mesh1).flen 0)
                (jflux_dFduL jacW1 (uW ((mesh1).intfacL 0))
                  (compute_boundary_state (fun x => x) (7/5) 2 bcW mesh1 0
                    (uW ((mesh1).intfacL 0)) (fun _ => 0))
                  ((mesh1).fnx 0) ((mesh1).fny 0))) ]
      ∧ (∀ r c blk a1 a2,
          MatOp.submit r c blk a1 a2 ∉ boundary_face_ops (fun x => x) jacW1 (7/5) 2 bcW mesh1 uW 0)
      ∧ ∀ op ∈ boundary_face_ops (fun x => x) jacW1 (7/5) 2 bcW mesh1 uW 0,
          op ∈ compute_jacobian (fun x => x) jacW1 (7/5) 2 bcW mesh1 uW true) :=
  ⟨by decide,
    compute_jacobian_boundary_face (fun x => x) jacW1 (7/5) 2 bcW mesh1 uW true 0 (by decide)⟩

/-- C3 (counterexample): two flux-Jacobian kernels with identical left outputs
but different right outputs produce identical operation sequences from
`FlowFV::compute_jacobian` on a mesh whose faces are all boundary faces — so
the "right-Jacobian folded into the diagonal block" part of the claim is
false: the diagonal contribution of a boundary face does not depend on the
right-Jacobian at all. -/
theorem compute_jacobian_boundary_ignores_right :
    (0:ℕ) < (mesh1).nbface
    ∧ jflux_dFduR jacW1 (uW 0) (uW 0) 0 0 ≠ jflux_dFduR jacW2 (uW 0) (uW 0) 0 0
    ∧ compute_jacobian (fun x => x) jacW1 (7/5) 2 bcW mesh1 uW true
        = compute_jacobian (fun x => x) jacW2 (7/5) 2 bcW mesh1 uW true :=
  ⟨by decide, by decide, rfl⟩
